import Mathlib

/-!
Verification of the constraint-modelling notebook `Solvers.ipynb`
(z3-solver demonstrations: kinematics, SEND+MORE=MONEY, Sudoku, knapsack).

The notebook's own code declares symbolic variables, builds constraint sets,
hands them to an external solver, and formats the returned model.  We embed
each constraint set as a predicate on candidate models (integer, real or
boolean valuations of the declared variables), embed the helper functions
(`in_range`, `amount`, `cell`, `display`) as Lean functions, and take the
concrete models printed in the notebook's output cells as candidate
assignments.  The theorems establish the documented properties of any model
of each constraint set, together with the concrete expected outcomes.
-/

namespace Solvers

/-! ## `in_range` (cell-6)

Python source:
```
def in_range(lo, hi, *vars):
    return [And(lo <= var, var < hi) for var in vars]
```
Each returned constraint, interpreted under a model that assigns the integer
value `v` to the variable, is the proposition `lo ≤ v ∧ v < hi`. -/

def in_range (lo hi : ℤ) (vars : List ℤ) : List Prop :=
  vars.map (fun v => lo ≤ v ∧ v < hi)

/-- Adding a list of constraints to a solver (`s.add(list)`) asserts each. -/
def allOf (cs : List Prop) : Prop := ∀ c ∈ cs, c

/-! ## Knapsack (cell-11)

Python source:
```
values = [360, 83, 59, 130, 431, 67, 230, 52]
weights = [7, 0, 30, 22, 80, 94, 11, 81]
capacity = 80
selections = [Bool(f'item{n}') for n in range(len(values))]
knapsack = Optimize()
knapsack.add(sum(s * w for s, w in zip(selections, weights)) <= capacity)
objective = knapsack.maximize(sum(s * v for s, v in zip(selections, values)))
```
A model assigns a boolean to each of the 8 selection variables; `s * w`
contributes `w` when the selection is true and `0` when false. -/

def knapValues : List ℤ := [360, 83, 59, 130, 431, 67, 230, 52]

def knapWeights : List ℤ := [7, 0, 30, 22, 80, 94, 11, 81]

def capacity : ℤ := 80

/-- Value of `sum(s * w for s, w in zip(selections, ws))` under a boolean model `sel`. -/
def selSum (sel : Fin 8 → Bool) (ws : List ℤ) : ℤ :=
  (((List.finRange 8).map (fun n => sel n)).zip ws).map
    (fun p => if p.1 then p.2 else 0) |>.sum

@[reducible] def knapConstraint (sel : Fin 8 → Bool) : Prop :=
  selSum sel knapWeights ≤ capacity

/-- The model printed by the notebook for the knapsack optimisation:
`item0..item3` and `item6` true, `item4`, `item5`, `item7` false. -/
def knapModel : Fin 8 → Bool := fun n =>
  match n with
  | 0 => true
  | 1 => true
  | 2 => true
  | 3 => true
  | 4 => false
  | 5 => false
  | 6 => true
  | 7 => false

/-! ## Uniform acceleration (cell-4)

Python source:
```
u, v, s, a, t = Reals('u v s a t')
rules = [
    v == u + a * t,
    s == u * t + a * t * t / 2
]
solve(u == 10, a == 1, v == 20, *rules)
```
A model assigns a real number to each of `u`, `v`, `s`, `a`, `t`. -/

def kinRules (u v s a t : ℝ) : Prop :=
  v = u + a * t ∧ s = u * t + a * t * t / 2

/-- The constraints passed to `solve`: the three bindings plus the rules. -/
def kinSystem (u v s a t : ℝ) : Prop :=
  u = 10 ∧ a = 1 ∧ v = 20 ∧ kinRules u v s a t

/-! ## `amount` (cell-6)

Python source:
```
def amount(model, *digits):
    v = 0
    for digit in digits:
        v = v * 10 + model[digit].as_long()
    return v
```
Under a model, each digit variable contributes its assigned integer value;
the loop is a left fold starting at 0. -/

def amount {α : Type} (model : α → ℤ) (digits : List α) : ℤ :=
  digits.foldl (fun v d => v * 10 + model d) 0

/-! ## Cryptarithm SEND + MORE = MONEY (cell-6)

Python source:
```
S, E, N, D, M, O, R, Y = Ints('S E N D M O R Y')
s = Solver()
s.add(        1000*S + 100*E + 10*N + D +
              1000*M + 100*O + 10*R + E ==
    10000*M + 1000*O + 100*N + 10*E + Y)
s.add(Distinct(S, E, N, D, M, O, R, Y))
s.add(in_range(0, 10, S, E, N, D, M, O, R, Y))
s.add(in_range(1, 10, S, M))
```
A model assigns an integer to each of the eight letter variables. -/

def cryptEquation (S E N D M O R Y : ℤ) : Prop :=
  1000 * S + 100 * E + 10 * N + D +
    1000 * M + 100 * O + 10 * R + E =
  10000 * M + 1000 * O + 100 * N + 10 * E + Y

def cryptConstraints (S E N D M O R Y : ℤ) : Prop :=
  cryptEquation S E N D M O R Y ∧
  List.Pairwise (fun a b => a ≠ b) [S, E, N, D, M, O, R, Y] ∧
  allOf (in_range 0 10 [S, E, N, D, M, O, R, Y]) ∧
  allOf (in_range 1 10 [S, M])

/-! ## Sudoku (cell-8, cell-9)

Python source:
```
sq3x3 = list(product(range(3), repeat=2))
puzzle = '...'
cells = [Int(str(s)) for s in range(81)]

def display(model):
    vs = count()
    return ''.join(
        str(model[cells[next(vs)]]) if c in ' 123456789' else c
        for c in puzzle)

def cell(R, C, r, c):
    return cells[9*(3*R+r) + 3*C + c]

rows = [Distinct(cells[r:r+9]) for r in range(0, 81, 9)]
cols = [Distinct(cells[c::9]) for c in range(9)]
blocks = [Distinct([cell(*p, *d) for d in sq3x3]) for p in sq3x3]
sudoku_rules = rows + cols + blocks

s = Solver()
s.add(sudoku_rules)
s.add(in_range(1, 10, *cells))
start_cells = (c for c in puzzle if c in ' 123456789')
for i, c in enumerate(start_cells):
    if c in '123456789':
        s.add(cells[i]==int(c))
s.add(cells[0] != 5)
```
A model assigns an integer to each of the 81 cell variables, which we index
by the flat cell number `0..80`. -/

def puzzle : String :=
  "   | 94| 3 \n   |51 |  7\n 89|   | 4 \n---+---+---\n   |   |2 8\n 6 |2 1| 5 \n1 2|   |   \n---+---+---\n 7 |   |52 \n9  | 65|   \n 4 |97 |   \n"

def puzzleChars : List Char := puzzle.toList

/-- The characters treated as cell placeholders: `c in ' 123456789'`. -/
def placeholderChars : List Char := " 123456789".toList

/-- The pre-filled clue digits: `c in '123456789'`. -/
def digitChars : List Char := "123456789".toList

def isPlaceholder (c : Char) : Bool := placeholderChars.contains c

def isClueDigit (c : Char) : Bool := digitChars.contains c

/-- Value of `int(c)` for a single digit character. -/
def charDigit (c : Char) : ℤ := (c.toNat : ℤ) - 48

/-- The flat index computed by `cell(R, C, r, c)`. -/
def cellFn (R C r c : ℕ) : ℕ := 9 * (3 * R + r) + 3 * C + c

/-- Source: `list(product(range(3), repeat=2))`. -/
def sq3x3 : List (ℕ × ℕ) :=
  (List.range 3).flatMap (fun a => (List.range 3).map (fun b => (a, b)))

/-- Index lists of the row constraints `cells[r:r+9]` for `r in range(0, 81, 9)`. -/
def rowIdx : List (List ℕ) := (List.range' 0 9 9).map (fun r => List.range' r 9 1)

/-- Index lists of the column constraints `cells[c::9]` for `c in range(9)`. -/
def colIdx : List (List ℕ) := (List.range 9).map (fun c => List.range' c 9 9)

/-- Index lists of the block constraints `[cell(*p, *d) for d in sq3x3]`. -/
def blockIdx : List (List ℕ) :=
  sq3x3.map (fun p => sq3x3.map (fun d => cellFn p.1 p.2 d.1 d.2))

/-- Source: `sudoku_rules = rows + cols + blocks`; one `Distinct` per index list. -/
def sudokuRulesIdx : List (List ℕ) := rowIdx ++ colIdx ++ blockIdx

/-- Source: `start_cells = (c for c in puzzle if c in ' 123456789')`. -/
def startCells : List Char := puzzleChars.filter (fun c => isPlaceholder c)

/-- Syntactic form of an instance-specific Sudoku constraint: an equality or
a disequality between one cell variable and one literal. -/
inductive InstanceConstraint where
  | eq (cell : ℕ) (val : ℤ)
  | ne (cell : ℕ) (val : ℤ)
deriving DecidableEq

def isEqC : InstanceConstraint → Bool
  | .eq _ _ => true
  | .ne _ _ => false

/-- The constraints added by the clue loop:
`for i, c in enumerate(start_cells): if c in '123456789': s.add(cells[i]==int(c))`. -/
def clueConstraints : List InstanceConstraint :=
  startCells.enum.filterMap
    (fun p => if isClueDigit p.2 then some (.eq p.1 (charDigit p.2)) else none)

/-- Everything instance-specific added to the solver: the clue equalities
followed by the extra constraint `s.add(cells[0] != 5)`. -/
def instanceConstraints : List InstanceConstraint :=
  clueConstraints ++ [.ne 0 5]

/-- Following the spec's words, the instance rule set: for every pre-filled
digit among the placeholders of the template, one equality constraint fixing
the corresponding cell to that digit (and nothing else). -/
def specClueRules : List InstanceConstraint :=
  (List.range 81).filterMap
    (fun i =>
      if isClueDigit (startCells.getD i ' ')
      then some (.eq i (charDigit (startCells.getD i ' ')))
      else none)

def holdsIC (m : ℕ → ℤ) : InstanceConstraint → Prop
  | .eq i d => m i = d
  | .ne i d => m i ≠ d

instance (m : ℕ → ℤ) (c : InstanceConstraint) : Decidable (holdsIC m c) :=
  match c with
  | .eq i d => inferInstanceAs (Decidable (m i = d))
  | .ne i d => inferInstanceAs (Decidable (m i ≠ d))

/-- The full constraint set submitted for the Sudoku instance. -/
def sudokuConstraints (m : ℕ → ℤ) : Prop :=
  (∀ l ∈ sudokuRulesIdx, List.Pairwise (fun a b => a ≠ b) (l.map m)) ∧
  allOf (in_range 1 10 ((List.range 81).map m)) ∧
  (∀ c ∈ instanceConstraints, holdsIC m c)

/-- The completed grid printed by the notebook for this puzzle. -/
def solvedGrid : List ℤ :=
  [7, 1, 5, 8, 9, 4, 6, 3, 2,
   2, 3, 4, 5, 1, 6, 8, 9, 7,
   6, 8, 9, 7, 2, 3, 1, 4, 5,
   4, 9, 3, 6, 5, 7, 2, 1, 8,
   8, 6, 7, 2, 3, 1, 9, 5, 4,
   1, 5, 2, 4, 8, 9, 7, 6, 3,
   3, 7, 6, 1, 4, 8, 5, 2, 9,
   9, 2, 8, 3, 6, 5, 4, 7, 1,
   5, 4, 1, 9, 7, 2, 3, 8, 6]

def solvedModel (i : ℕ) : ℤ := solvedGrid.getD i 0

/-- Decimal digit characters of a natural number, as in Python `str`. -/
def natStr (n : ℕ) : List Char := Nat.toDigits 10 n

/-- Python `str` of an integer. -/
def intStr (n : ℤ) : List Char :=
  if n < 0 then '-' :: natStr n.natAbs else natStr n.toNat

/-- The character-by-character walk of `display`, carrying the `count()`
counter: a placeholder is replaced by `str(model[cells[next(vs)]])`, any
other character passes through. -/
def displayChars (m : ℕ → ℤ) : List Char → ℕ → List Char
  | [], _ => []
  | c :: cs, k =>
    if isPlaceholder c then intStr (m k) ++ displayChars m cs (k + 1)
    else c :: displayChars m cs k

def display (m : ℕ → ℤ) : List Char := displayChars m puzzleChars 0

/-- Number of placeholder characters in a list: how far the `count()`
counter has advanced after consuming it. -/
def phCount (l : List Char) : ℕ := (l.filter (fun c => isPlaceholder c)).length

/-! ## Variable declarations (C9) -/

inductive VarSort where
  | real
  | int
  | bool
deriving DecidableEq

/-- Source: `Reals('u v s a t')`. -/
def kinDecls : List (String × VarSort) :=
  ["u", "v", "s", "a", "t"].map (fun n => (n, VarSort.real))

/-- Source: `Ints('S E N D M O R Y')`. -/
def cryptDecls : List (String × VarSort) :=
  ["S", "E", "N", "D", "M", "O", "R", "Y"].map (fun n => (n, VarSort.int))

/-- Source: `[Int(str(s)) for s in range(81)]`. -/
def sudokuDecls : List (String × VarSort) :=
  (List.range 81).map (fun i => (Nat.repr i, VarSort.int))

/-- Source: the eight boolean item selection variables, named item0..item7. -/
def knapDecls : List (String × VarSort) :=
  (List.range 8).map (fun n => ("item" ++ Nat.repr n, VarSort.bool))

end Solvers

/-- Asserting `s.add(in_range(lo, hi, vs))` states the two-sided bound for each
variable. -/
theorem allOf_in_range (lo hi : ℤ) (vs : List ℤ) :
    Solvers.allOf (Solvers.in_range lo hi vs) ↔ ∀ v ∈ vs, lo ≤ v ∧ v < hi := by
  constructor
  · intro h v hv
    exact h _ (List.mem_map_of_mem _ hv)
  · intro h c hc
    obtain ⟨v, hv, rfl⟩ := List.mem_map.mp hc
    exact h v hv

theorem sendmoreM (S E N D M O R Y : ℤ)
    (hS : 0 ≤ S ∧ S < 10) (hE : 0 ≤ E ∧ E < 10) (hN : 0 ≤ N ∧ N < 10)
    (hD : 0 ≤ D ∧ D < 10) (hO : 0 ≤ O ∧ O < 10)
    (hR : 0 ≤ R ∧ R < 10) (hY : 0 ≤ Y ∧ Y < 10)
    (hM1 : 1 ≤ M)
    (heq : 1000 * S + 100 * E + 10 * N + D + 1000 * M + 100 * O + 10 * R + E =
      10000 * M + 1000 * O + 100 * N + 10 * E + Y) :
    M = 1 := by omega

theorem sendmoreO (S E N D M O R Y : ℤ)
    (hS : 0 ≤ S ∧ S < 10) (hE : 0 ≤ E ∧ E < 10) (hN : 0 ≤ N ∧ N < 10)
    (hD : 0 ≤ D ∧ D < 10) (hO : 0 ≤ O ∧ O < 10)
    (hR : 0 ≤ R ∧ R < 10) (hY : 0 ≤ Y ∧ Y < 10)
    (hM : M = 1) (hOM : O ≠ M)
    (heq : 1000 * S + 100 * E + 10 * N + D + 1000 * M + 100 * O + 10 * R + E =
      10000 * M + 1000 * O + 100 * N + 10 * E + Y) :
    O = 0 := by omega

theorem sendmoreS (S E N D M O R Y : ℤ)
    (hS : 0 ≤ S ∧ S < 10) (hE : 0 ≤ E ∧ E < 10) (hN : 0 ≤ N ∧ N < 10)
    (hD : 0 ≤ D ∧ D < 10)
    (hR : 0 ≤ R ∧ R < 10) (hY : 0 ≤ Y ∧ Y < 10)
    (hM : M = 1) (hO : O = 0)
    (heq : 1000 * S + 100 * E + 10 * N + D + 1000 * M + 100 * O + 10 * R + E =
      10000 * M + 1000 * O + 100 * N + 10 * E + Y) :
    S = 9 := by omega

theorem sendmoreN (S E N D M O R Y : ℤ)
    (hE : 0 ≤ E ∧ E < 10) (hN : 0 ≤ N ∧ N < 10)
    (hD : 0 ≤ D ∧ D < 10)
    (hR : 0 ≤ R ∧ R < 10) (hY : 0 ≤ Y ∧ Y < 10)
    (hM : M = 1) (hO : O = 0) (hS : S = 9) (hRO : R ≠ O)
    (heq : 1000 * S + 100 * E + 10 * N + D + 1000 * M + 100 * O + 10 * R + E =
      10000 * M + 1000 * O + 100 * N + 10 * E + Y) :
    N = E + 1 := by omega

theorem sendmoreR (S E N D M O R Y : ℤ)
    (hE : 0 ≤ E ∧ E < 10) (hD : 0 ≤ D ∧ D < 10)
    (hR : 0 ≤ R ∧ R < 10) (hY : 0 ≤ Y ∧ Y < 10)
    (hM : M = 1) (hO : O = 0) (hS : S = 9) (hN : N = E + 1) (hRS : R ≠ S)
    (heq : 1000 * S + 100 * E + 10 * N + D + 1000 * M + 100 * O + 10 * R + E =
      10000 * M + 1000 * O + 100 * N + 10 * E + Y) :
    R = 8 := by omega

theorem sendmoreE (S E N D M O R Y : ℤ)
    (hE : 0 ≤ E ∧ E < 10) (hD : 0 ≤ D ∧ D < 10) (hY : 0 ≤ Y ∧ Y < 10)
    (hM : M = 1) (hO : O = 0) (hS : S = 9) (hR : R = 8) (hN : N = E + 1)
    (dEM : E ≠ M) (dEO : E ≠ O) (dES : S ≠ E) (dER : E ≠ R)
    (dDM : D ≠ M) (dDO : D ≠ O) (dDS : S ≠ D) (dDR : D ≠ R)
    (dYM : M ≠ Y) (dYO : O ≠ Y) (dYS : S ≠ Y) (dYR : R ≠ Y)
    (dNM : N ≠ M) (dNO : N ≠ O) (dNS : S ≠ N) (dNR : N ≠ R)
    (dED : E ≠ D) (dEY : E ≠ Y) (dDY : D ≠ Y) (dND : N ≠ D) (dNY : N ≠ Y)
    (heq : 1000 * S + 100 * E + 10 * N + D + 1000 * M + 100 * O + 10 * R + E =
      10000 * M + 1000 * O + 100 * N + 10 * E + Y) :
    E = 5 ∧ D = 7 ∧ Y = 2 := by
  subst hM hO hS hR hN
  obtain ⟨hE0, hE9⟩ := hE
  interval_cases E <;> omega

/-- The Horner fold with accumulator `v` over a value list computes
`v·10^len` plus the positional weighted sum of the values. -/
theorem horner_foldl_eq (v : ℤ) (ds : List ℤ) :
    ds.foldl (fun v d => v * 10 + d) v =
      v * 10 ^ ds.length +
        ∑ i ∈ Finset.range ds.length, ds.getD i 0 * 10 ^ (ds.length - 1 - i) := by
  induction ds generalizing v with
  | nil => simp
  | cons d ds ih =>
    simp only [List.foldl_cons, List.length_cons]
    rw [ih, Finset.sum_range_succ']
    simp only [List.getD_cons_succ, List.getD_cons_zero, Nat.add_sub_cancel,
      Nat.sub_zero]
    have hsum : ∑ i ∈ Finset.range ds.length, ds.getD i 0 * 10 ^ (ds.length - (i + 1)) =
        ∑ i ∈ Finset.range ds.length, ds.getD i 0 * 10 ^ (ds.length - 1 - i) := by
      apply Finset.sum_congr rfl
      intro i _
      congr 2
      omega
    rw [hsum, pow_succ]
    ring

/-- C4: under the bindings `u = 10`, `a = 1`, `v = 20`, the assignment
`t = 10`, `s = 150` satisfies both kinematics rules exactly, and it is the
only assignment of the remaining two variables consistent with the rules and
bindings. -/
theorem kinematics_unique_solution :
    Solvers.kinSystem 10 20 150 1 10 ∧
    (∀ s t : ℝ, Solvers.kinSystem 10 20 s 1 t → t = 10 ∧ s = 150) := by
  constructor
  · refine ⟨rfl, rfl, rfl, ?_, ?_⟩ <;> norm_num
  · rintro s t ⟨-, -, -, hv, hs⟩
    have ht : t = 10 := by linarith
    subst ht
    norm_num at hs
    exact ⟨rfl, hs⟩

/-- Witness for C4: the uniqueness direction applied at the solution itself. -/
theorem kinematics_unique_solution_witness : (10 : ℝ) = 10 ∧ (150 : ℝ) = 150 :=
  kinematics_unique_solution.2 150 10
    ⟨rfl, rfl, rfl, by norm_num, by norm_num⟩

/-- C8: for every model and every finite sequence of digit variables, the
Horner-style accumulation in `amount` returns the positional weighted sum
`Σ_{i<k} model[dᵢ] · 10^(k-1-i)`; the amount of the empty sequence is 0. -/
theorem amount_positional {α : Type} (model : α → ℤ) (digits : List α) :
    Solvers.amount model digits =
      ∑ i : Fin digits.length, model (digits.get i) * 10 ^ (digits.length - 1 - i.val) ∧
    Solvers.amount model ([] : List α) = 0 := by
  constructor
  · have hmap : Solvers.amount model digits =
        (digits.map model).foldl (fun v d => v * 10 + d) 0 := by
      rw [Solvers.amount, List.foldl_map]
    rw [hmap, horner_foldl_eq]
    simp only [List.length_map, zero_mul, zero_add]
    rw [← Fin.sum_univ_eq_sum_range
      (fun n => (digits.map model).getD n 0 * 10 ^ (digits.length - 1 - n)) digits.length]
    apply Finset.sum_congr rfl
    intro i _
    have hi : (i : ℕ) < (digits.map model).length := by simp
    rw [List.getD_eq_getElem _ _ hi, List.getElem_map]
    simp [List.get_eq_getElem]
  · rfl


/-- C1: for the knapsack instance with the given values, weights and
capacity 80, the selection returned by the optimizing solve has total weight
at most 80, its total value equals the reported objective value 862, and no
selection of weight at most 80 has strictly greater total value. -/
theorem knapsack_optimal_862 :
    Solvers.knapConstraint Solvers.knapModel ∧
    Solvers.selSum Solvers.knapModel Solvers.knapValues = 862 ∧
    (∀ sel : Fin 8 → Bool, Solvers.knapConstraint sel →
      Solvers.selSum sel Solvers.knapValues ≤ 862) := by
  refine ⟨by decide, by decide, ?_⟩
  set_option maxRecDepth 4000 in decide

/-- Witness for C1: the optimality bound applied at the all-false selection. -/
theorem knapsack_optimal_862_witness :
    Solvers.knapConstraint (fun _ => false) ∧
    Solvers.selSum (fun _ => false) Solvers.knapValues ≤ 862 :=
  ⟨by decide, knapsack_optimal_862.2.2 (fun _ => false) (by decide)⟩

/-- C10: `in_range lo hi` returns one constraint per variable; the `i`-th
constraint is `lo ≤ vᵢ ∧ vᵢ < hi` (exclusive upper bound), so
`in_range 0 10` confines a variable to `[0, 9]` and `in_range 1 10`
to `[1, 9]`. -/
theorem in_range_spec (lo hi : ℤ) (vars : List ℤ) :
    (Solvers.in_range lo hi vars).length = vars.length ∧
    (∀ i : Fin vars.length,
      (Solvers.in_range lo hi vars).get (i.cast (by simp [Solvers.in_range])) ↔
        lo ≤ vars.get i ∧ vars.get i < hi) ∧
    (∀ v : ℤ, (0 ≤ v ∧ v < 10 ↔ 0 ≤ v ∧ v ≤ 9) ∧
      (1 ≤ v ∧ v < 10 ↔ 1 ≤ v ∧ v ≤ 9)) := by
  refine ⟨by simp [Solvers.in_range], ?_, ?_⟩
  · intro i
    simp [Solvers.in_range]
  · intro v
    constructor <;> constructor <;> intro h <;> exact ⟨h.1, by omega⟩

/-- Witness for C10: the specification evaluated on `lo = 0`, `hi = 10`,
variables `[3, 7]`, at index `0`. -/
theorem in_range_spec_witness :
    (Solvers.in_range 0 10 [3, 7]).length = 2 ∧
    ((Solvers.in_range 0 10 [3, 7]).get ⟨0, by simp [Solvers.in_range]⟩ ↔
      (0 : ℤ) ≤ 3 ∧ (3 : ℤ) < 10) := by
  have h := in_range_spec 0 10 [3, 7]
  exact ⟨h.1, h.2.1 ⟨0, by simp⟩⟩

/-- C2: any model of the cryptarithm constraint set has eight pairwise
distinct digits in 0–9 with the leading digits S and M in 1–9, satisfies the
decimal addition SEND + MORE = MONEY, and yields the MONEY amount 10652; the
constraint set is satisfied by the digit assignment S=9, E=5, N=6, D=7, M=1,
O=0, R=8, Y=2. -/
theorem cryptarithm_send_more_money :
    Solvers.cryptConstraints 9 5 6 7 1 0 8 2 ∧
    (∀ S E N D M O R Y : ℤ, Solvers.cryptConstraints S E N D M O R Y →
      (List.Pairwise (fun a b => a ≠ b) [S, E, N, D, M, O, R, Y] ∧
       (∀ v ∈ [S, E, N, D, M, O, R, Y], 0 ≤ v ∧ v ≤ 9) ∧
       (1 ≤ S ∧ S ≤ 9) ∧ (1 ≤ M ∧ M ≤ 9) ∧
       Solvers.cryptEquation S E N D M O R Y ∧
       Solvers.amount id [M, O, N, E, Y] = 10652)) := by
  constructor
  · refine ⟨?_, ?_, ?_, ?_⟩
    · simp only [Solvers.cryptEquation]; norm_num
    · norm_num
    · rw [allOf_in_range]; norm_num
    · rw [allOf_in_range]; norm_num
  · intro S E N D M O R Y hc
    obtain ⟨heq, hdist, hr1, hr2⟩ := hc
    have heq' := heq
    simp only [Solvers.cryptEquation] at heq'
    rw [allOf_in_range] at hr1 hr2
    have hS := hr1 S (by simp)
    have hE := hr1 E (by simp)
    have hN := hr1 N (by simp)
    have hD := hr1 D (by simp)
    have hM := hr1 M (by simp)
    have hO := hr1 O (by simp)
    have hR := hr1 R (by simp)
    have hY := hr1 Y (by simp)
    have hS1 := (hr2 S (by simp)).1
    have hM1 := (hr2 M (by simp)).1
    have hdist' := hdist
    simp only [List.pairwise_cons, List.mem_cons, List.not_mem_nil,
      List.mem_singleton, forall_eq_or_imp, forall_eq, or_false, false_or,
      and_true, false_implies, implies_true, List.Pairwise.nil] at hdist'
    obtain ⟨⟨dSE, dSN, dSD, dSM, dSO, dSR, dSY⟩,
      ⟨dEN, dED, dEM, dEO, dER, dEY⟩, ⟨dND, dNM, dNO, dNR, dNY⟩,
      ⟨dDM, dDO, dDR, dDY⟩, ⟨dMO, dMR, dMY⟩, ⟨dOR, dOY⟩, dRY⟩ := hdist'
    have hMv : M = 1 := sendmoreM S E N D M O R Y hS hE hN hD hO hR hY hM1 heq'
    have hOv : O = 0 := sendmoreO S E N D M O R Y hS hE hN hD hO hR hY hMv
      (fun h => dMO h.symm) heq'
    have hSv : S = 9 := sendmoreS S E N D M O R Y hS hE hN hD hR hY hMv hOv heq'
    have hNv : N = E + 1 := sendmoreN S E N D M O R Y hE hN hD hR hY hMv hOv hSv
      (fun h => dOR h.symm) heq'
    have hRv : R = 8 := sendmoreR S E N D M O R Y hE hD hR hY hMv hOv hSv hNv
      (fun h => dSR h.symm) heq'
    have hEv : E = 5 ∧ D = 7 ∧ Y = 2 :=
      sendmoreE S E N D M O R Y hE hD hY hMv hOv hSv hRv hNv
        dEM dEO dSE dER dDM dDO dSD dDR dMY dOY dSY dRY
        (fun h => dNM h) (fun h => dNO h) dSN (fun h => dNR h)
        dED dEY dDY dND dNY heq'
    refine ⟨hdist, ?_, ⟨hS1, by omega⟩, ⟨hM1, by omega⟩, heq, ?_⟩
    · intro v hv
      simp only [List.mem_cons, List.not_mem_nil, or_false] at hv
      rcases hv with rfl | rfl | rfl | rfl | rfl | rfl | rfl | rfl <;> omega
    · simp only [Solvers.amount, List.foldl, id]
      omega

/-- Witness for C2: the universal direction applied to the concrete solution
S=9, E=5, N=6, D=7, M=1, O=0, R=8, Y=2, whose MONEY amount is 10652. -/
theorem cryptarithm_send_more_money_witness :
    Solvers.amount id [(1 : ℤ), 0, 6, 5, 2] = 10652 :=
  (cryptarithm_send_more_money.2 9 5 6 7 1 0 8 2
    cryptarithm_send_more_money.1).2.2.2.2.2

/-- A list of 9 pairwise-distinct integers lying in 1..9 is a permutation
of [1, ..., 9]. -/
theorem perm_one_nine (l : List ℤ) (hnd : l.Nodup) (hlen : l.length = 9)
    (hmem : ∀ x ∈ l, 1 ≤ x ∧ x < 10) :
    l.Perm [1, 2, 3, 4, 5, 6, 7, 8, 9] := by
  have hnd9 : ([1, 2, 3, 4, 5, 6, 7, 8, 9] : List ℤ).Nodup := by decide
  apply List.perm_of_nodup_nodup_toFinset_eq hnd hnd9
  have hsub : l.toFinset ⊆ ([1, 2, 3, 4, 5, 6, 7, 8, 9] : List ℤ).toFinset := by
    intro x hx
    rw [List.mem_toFinset] at hx ⊢
    have hb := hmem x hx
    simp only [List.mem_cons, List.not_mem_nil, or_false]
    omega
  apply Finset.eq_of_subset_of_card_le hsub
  have hcard : ([1, 2, 3, 4, 5, 6, 7, 8, 9] : List ℤ).toFinset.card = 9 := by decide
  rw [hcard, List.toFinset_card_of_nodup hnd, hlen]

/-- C3: any model of the Sudoku constraint set has every row, column and 3x3
block a permutation of 1–9 and agrees with every pre-filled clue of the
template; the printed completed grid satisfies the constraint set. -/
theorem sudoku_solution :
    Solvers.sudokuConstraints Solvers.solvedModel ∧
    (∀ m : ℕ → ℤ, Solvers.sudokuConstraints m →
      ((∀ l ∈ Solvers.sudokuRulesIdx, (l.map m).Perm [1, 2, 3, 4, 5, 6, 7, 8, 9]) ∧
       (∀ ic ∈ Solvers.clueConstraints, Solvers.holdsIC m ic))) := by
  constructor
  · refine ⟨by decide, ?_, by decide⟩
    rw [allOf_in_range]
    decide
  · intro m hm
    obtain ⟨hdist, hrange, hinst⟩ := hm
    have hrange' := (allOf_in_range 1 10 _).mp hrange
    have hbound : ∀ i < 81, 1 ≤ m i ∧ m i < 10 := by
      intro i hi
      exact hrange' (m i) (List.mem_map_of_mem _ (List.mem_range.mpr hi))
    constructor
    · intro l hl
      apply perm_one_nine
      · exact hdist l hl
      · have hfact : ∀ l ∈ Solvers.sudokuRulesIdx, l.length = 9 := by decide
        simp [hfact l hl]
      · intro x hx
        obtain ⟨i, hi, rfl⟩ := List.mem_map.mp hx
        have hfact : ∀ l ∈ Solvers.sudokuRulesIdx, ∀ i ∈ l, i < 81 := by decide
        exact hbound i (hfact l hl i hi)
    · intro ic hic
      apply hinst
      simp only [Solvers.instanceConstraints, List.mem_append]
      exact Or.inl hic

/-- Witness for C3: the universal direction applied to the printed grid; its
first row, as stored, is a permutation of 1–9, and it satisfies the very
first clue (cell 4 = 9). -/
theorem sudoku_solution_witness :
    (([0, 1, 2, 3, 4, 5, 6, 7, 8].map Solvers.solvedModel).Perm
      [1, 2, 3, 4, 5, 6, 7, 8, 9]) ∧
    Solvers.holdsIC Solvers.solvedModel (Solvers.InstanceConstraint.eq 4 9) := by
  have h := sudoku_solution.2 Solvers.solvedModel sudoku_solution.1
  exact ⟨h.1 [0, 1, 2, 3, 4, 5, 6, 7, 8] (by decide), h.2 _ (by decide)⟩

/-- C5 counterexample: the instance rule set added to the Sudoku solver
contains the disequality `cells[0] != 5`, which is not a clue equality, so it
does not consist of the clue equalities alone. -/
theorem sudoku_instance_rules_cex :
    Solvers.InstanceConstraint.ne 0 5 ∈ Solvers.instanceConstraints ∧
    Solvers.isEqC (Solvers.InstanceConstraint.ne 0 5) = false ∧
    Solvers.instanceConstraints ≠ Solvers.specClueRules := by
  refine ⟨by decide, rfl, by decide⟩

/-- C5 (amended): the instance rule set added to the Sudoku solver consists
of exactly one equality per pre-filled digit of the template — the spec-side
clue list — followed by one extra disequality constraint `cells[0] != 5`. -/
theorem sudoku_instance_rules :
    Solvers.instanceConstraints =
      Solvers.specClueRules ++ [Solvers.InstanceConstraint.ne 0 5] := by
  decide

/-- C7: the coordinate transform `cell` is injective on block index and
in-block offset, the nine block index lists jointly enumerate each of the
81 cells exactly once, and for a fixed block `(R, C)` the nine flat indices
are exactly the cells with grid row in `3R..3R+2` and grid column in
`3C..3C+2`. -/
theorem cell_transform :
    (∀ R C r c R' C' r' c' : Fin 3,
      Solvers.cellFn R.val C.val r.val c.val =
        Solvers.cellFn R'.val C'.val r'.val c'.val →
      (R = R' ∧ C = C' ∧ r = r' ∧ c = c')) ∧
    Solvers.blockIdx.flatten.Perm (List.range 81) ∧
    (∀ p ∈ Solvers.sq3x3, ∀ i < 81,
      (i ∈ Solvers.sq3x3.map (fun d => Solvers.cellFn p.1 p.2 d.1 d.2) ↔
        (3 * p.1 ≤ i / 9 ∧ i / 9 < 3 * p.1 + 3 ∧
         3 * p.2 ≤ i % 9 ∧ i % 9 < 3 * p.2 + 3))) := by
  refine ⟨by decide, by decide, by decide⟩

/-- Witness for C7: injectivity applied at the concrete coinciding input
`(0, 1, 2, 0)`, and the block membership equivalence for block `(1, 2)` at
flat cell 41 (grid row 4, column 5). -/
theorem cell_transform_witness :
    ((0 : Fin 3) = 0 ∧ (1 : Fin 3) = 1 ∧ (2 : Fin 3) = 2 ∧ (0 : Fin 3) = 0) ∧
    (41 ∈ Solvers.sq3x3.map (fun d => Solvers.cellFn 1 2 d.1 d.2) ↔
      (3 * 1 ≤ 41 / 9 ∧ 41 / 9 < 3 * 1 + 3 ∧ 3 * 2 ≤ 41 % 9 ∧ 41 % 9 < 3 * 2 + 3)) :=
  ⟨cell_transform.1 0 1 2 0 0 1 2 0 rfl,
   cell_transform.2.2 (1, 2) (by decide) 41 (by decide)⟩

theorem phCount_cons (c : Char) (l : List Char) :
    Solvers.phCount (c :: l) =
      (if Solvers.isPlaceholder c then 1 else 0) + Solvers.phCount l := by
  by_cases h : Solvers.isPlaceholder c
  · simp [Solvers.phCount, List.filter_cons, h, Nat.add_comm]
  · simp [Solvers.phCount, List.filter_cons, h]

/-- Python `str` of a single-digit value is the one corresponding digit
character. -/
theorem intStr_single (n : ℤ) (h0 : 0 ≤ n) (h9 : n < 10) :
    Solvers.intStr n = [Nat.digitChar n.toNat] := by
  have hcase : n = 0 ∨ n = 1 ∨ n = 2 ∨ n = 3 ∨ n = 4 ∨ n = 5 ∨ n = 6 ∨
      n = 7 ∨ n = 8 ∨ n = 9 := by omega
  rcases hcase with rfl | rfl | rfl | rfl | rfl | rfl | rfl | rfl | rfl | rfl <;>
    decide

/-- When every model value is a single digit, the display walk preserves the
length of the template. -/
theorem displayChars_length (m : ℕ → ℤ) (hm : ∀ i, 0 ≤ m i ∧ m i < 10)
    (tpl : List Char) (k : ℕ) :
    (Solvers.displayChars m tpl k).length = tpl.length := by
  induction tpl generalizing k with
  | nil => rfl
  | cons c cs ih =>
    simp only [Solvers.displayChars]
    by_cases hc : Solvers.isPlaceholder c
    · rw [if_pos hc, List.length_append, intStr_single _ (hm k).1 (hm k).2, ih]
      simp [Nat.add_comm]
    · rw [if_neg hc, List.length_cons, ih]
      rfl

/-- When every model value is a single digit, the display walk substitutes
the digit of the cell numbered by the placeholders already consumed, and
passes every other character through at its position. -/
theorem displayChars_getD (m : ℕ → ℤ) (hm : ∀ i, 0 ≤ m i ∧ m i < 10)
    (tpl : List Char) (k j : ℕ) (hj : j < tpl.length) :
    (Solvers.displayChars m tpl k).getD j ' ' =
      if Solvers.isPlaceholder (tpl.getD j ' ')
      then Nat.digitChar (m (k + Solvers.phCount (tpl.take j))).toNat
      else tpl.getD j ' ' := by
  induction tpl generalizing k j with
  | nil => simp at hj
  | cons c cs ih =>
    rcases j with _ | j
    · simp only [List.take_zero, List.getD_cons_zero]
      rw [show Solvers.phCount [] = 0 from rfl, Nat.add_zero]
      simp only [Solvers.displayChars]
      by_cases hc : Solvers.isPlaceholder c
      · rw [if_pos hc, if_pos hc, intStr_single _ (hm k).1 (hm k).2]
        rfl
      · rw [if_neg hc, if_neg hc]
        rfl
    · have hj' : j < cs.length := by simpa using hj
      simp only [List.getD_cons_succ, List.take_succ_cons, phCount_cons]
      simp only [Solvers.displayChars]
      by_cases hc : Solvers.isPlaceholder c
      · rw [if_pos hc, intStr_single _ (hm k).1 (hm k).2,
          List.singleton_append, List.getD_cons_succ, ih (k + 1) j hj']
        simp only [hc, if_true]
        have harith : k + (1 + Solvers.phCount (cs.take j)) =
            k + 1 + Solvers.phCount (cs.take j) := by omega
        rw [harith]
      · rw [if_neg hc, List.getD_cons_succ, ih k j hj']
        simp [hc]

/-- C6 counterexample: for the model that assigns 10 to every cell, the
display function does not return a string of the template's length (each
substitution inserts the two characters of the decimal value 10). -/
theorem display_model_ten_cex :
    ¬ ((Solvers.display (fun _ => 10)).length = Solvers.puzzleChars.length) := by
  set_option maxRecDepth 40000 in decide

/-- C6 (amended): for every model assigning a single-digit value 0–9 to each
cell, the display function returns a string of the template's length in
which each structural character (the only non-placeholder characters are
`|`, `-`, `+` and the newline) is unchanged at its position, and the j-th
character, when a placeholder, is the digit of the model's value for the
cell indexed by the number of placeholders strictly before position j (the
`count()` counter value reached there). -/
theorem display_positional (m : ℕ → ℤ) (hm : ∀ i, 0 ≤ m i ∧ m i < 10) :
    (Solvers.display m).length = Solvers.puzzleChars.length ∧
    (∀ j < Solvers.puzzleChars.length,
      (Solvers.display m).getD j ' ' =
        if Solvers.isPlaceholder (Solvers.puzzleChars.getD j ' ')
        then Nat.digitChar (m (Solvers.phCount (Solvers.puzzleChars.take j))).toNat
        else Solvers.puzzleChars.getD j ' ') ∧
    (∀ c ∈ Solvers.puzzleChars,
      Solvers.isPlaceholder c = true ∨ c ∈ ['|', '-', '+', '\n']) := by
  refine ⟨displayChars_length m hm _ 0, ?_,
    by set_option maxRecDepth 40000 in decide⟩
  intro j hj
  have h := displayChars_getD m hm Solvers.puzzleChars 0 j hj
  simpa using h

/-- Every value of the printed completed grid, read through `solvedModel`,
is a single digit. -/
theorem solvedModel_digit (i : ℕ) :
    0 ≤ Solvers.solvedModel i ∧ Solvers.solvedModel i < 10 := by
  rcases Nat.lt_or_ge i 81 with h | h
  · have hlen : Solvers.solvedGrid.length = 81 := by decide
    have hmem : ∀ x ∈ Solvers.solvedGrid, 0 ≤ x ∧ x < 10 := by decide
    have hlt : i < Solvers.solvedGrid.length := by omega
    rw [show Solvers.solvedModel i = Solvers.solvedGrid.getD i 0 from rfl,
      List.getD_eq_getElem Solvers.solvedGrid 0 hlt]
    exact hmem _ (List.getElem_mem hlt)
  · have hlen : Solvers.solvedGrid.length = 81 := by decide
    rw [show Solvers.solvedModel i = Solvers.solvedGrid.getD i 0 from rfl,
      List.getD_eq_default Solvers.solvedGrid 0 (by omega)]
    norm_num

/-- Witness for C6: the amended positional description applied to the
printed completed grid, whose values are all single digits. -/
theorem display_positional_witness :
    (Solvers.display Solvers.solvedModel).length = Solvers.puzzleChars.length :=
  (display_positional Solvers.solvedModel solvedModel_digit).1

/-- C9: the four constraint sets are self-consistent in variable naming:
each problem's declared variable names are pairwise distinct (five Real
names for kinematics, eight Int names for the cryptarithm, 81 Int names for
Sudoku, eight Bool names for knapsack), so no name is declared with two
different sorts within a problem. -/
theorem variable_naming :
    (Solvers.kinDecls.map Prod.fst).Nodup ∧
    (Solvers.cryptDecls.map Prod.fst).Nodup ∧
    (Solvers.sudokuDecls.map Prod.fst).Nodup ∧
    (Solvers.knapDecls.map Prod.fst).Nodup ∧
    (∀ p ∈ Solvers.kinDecls, ∀ q ∈ Solvers.kinDecls, p.1 = q.1 → p.2 = q.2) ∧
    (∀ p ∈ Solvers.cryptDecls, ∀ q ∈ Solvers.cryptDecls, p.1 = q.1 → p.2 = q.2) ∧
    (∀ p ∈ Solvers.sudokuDecls, ∀ q ∈ Solvers.sudokuDecls, p.1 = q.1 → p.2 = q.2) ∧
    (∀ p ∈ Solvers.knapDecls, ∀ q ∈ Solvers.knapDecls, p.1 = q.1 → p.2 = q.2) := by
  refine ⟨by decide, by decide, by decide, by decide, by decide, by decide,
    ?_, ?_⟩
  · intro p hp q hq h
    simp only [Solvers.sudokuDecls, List.mem_map] at hp hq
    obtain ⟨i, _, rfl⟩ := hp
    obtain ⟨j, _, rfl⟩ := hq
    rfl
  · intro p hp q hq h
    simp only [Solvers.knapDecls, List.mem_map] at hp hq
    obtain ⟨i, _, rfl⟩ := hp
    obtain ⟨j, _, rfl⟩ := hq
    rfl
